import Mathlib

/-!
Verification development for the distributed atom-field gather/scatter layer
of `library.cpp` (functions `lammps_gather_atoms`, `lammps_scatter_atoms`,
`lammps_get_natoms`, `lammps_commands_list`).

Modelling conventions (shallow embedding):
* C buffers (`int *` / `double *`) are modelled as total functions `Nat → Int`;
  per-atom 2d arrays (`int **` / `double **`) as `Nat → Nat → Int`.  All writes
  performed by the code are at indices below the allocated length whenever the
  preconditions checked by the code hold, so the total-function model is
  faithful on the allocated range.
* `double` values are modelled by the exact type `Int`: on every path the code
  only copies values, or sums one value with zeros contributed by other ranks,
  so no floating-point rounding distinguishes the model from the code on the
  properties treated here.  The `type = 0` (int) and `type = 1` (double)
  branches of the C code are kept as separate definitions because their bodies
  differ (notably `array[i][0]` vs `array[i][j]` in the gather staging loops).
* `MPI_Allreduce(copy, data, n, ..., MPI_SUM, world)` is modelled as the
  element-wise sum over the list of per-rank staging buffers, producing the
  identical result buffer on every rank.
* External collaborators (`Atom::tag_consecutive`, `Atom::map`,
  `Atom::extract`, `Error::warning`, `Memory::create/destroy`) are modelled as
  parameters of the definitions: tag data, the tag-to-local-slot map, whether
  the field name resolved (`extract` returned non-NULL), and the count of
  warnings emitted on a given rank.
-/

/-- Modelled from the spec: `MAXSMALLINT` is defined in a header outside this
repository slice; the spec describes it as the largest 32-bit signed value used
as the index bound ("a 32-bit signed bound in the reference system"). -/
def MAXSMALLINT : Int := 2 ^ 31 - 1

/-- Embedding of `lammps_get_natoms` (library.cpp:721-728): returns 0 when the
bigint total atom count exceeds `MAXSMALLINT`, else the count cast to `int`.
The cast `static_cast<int>` is exact for `0 ≤ natoms ≤ MAXSMALLINT`, so it is
modelled as the identity on that branch. -/
def lammps_get_natoms (natoms : Int) : Int :=
  if MAXSMALLINT < natoms then 0 else natoms

/-- Global engine state consulted by the precondition checks of
`lammps_gather_atoms` and `lammps_scatter_atoms`: `atom->natoms` (a bigint),
`atom->tag_enable`, the result of `atom->tag_consecutive()`, `atom->map_style`
and the size of the process group (`comm->nprocs`). -/
structure LibGlobals where
  natoms : Int
  tag_enable : Bool
  tag_consecutive : Bool
  map_style : Nat
  nprocs : Nat

/-- Precondition flag of `lammps_gather_atoms` (library.cpp:750-753):
set when tags are disabled, tags are not consecutive, or
`natoms > MAXSMALLINT`. -/
def gatherFlag (g : LibGlobals) : Bool :=
  (!g.tag_enable || !g.tag_consecutive) || decide (MAXSMALLINT < g.natoms)

/-- Precondition flag of `lammps_scatter_atoms` (library.cpp:849-853): the
gather conditions plus `map_style == 0` (no tag-to-local-slot map). -/
def scatterFlag (g : LibGlobals) : Bool :=
  gatherFlag g || decide (g.map_style = 0)

/-- Number of warnings emitted by rank `me` during one call to
`lammps_gather_atoms`, given whether `atom->extract(name)` resolved
(`nameKnown`).  The precondition warning (library.cpp:754-757) is guarded by
`comm->me == 0`; the unknown-property warning (library.cpp:764-767) is not
guarded and is emitted by every rank reaching it. -/
def gatherWarnings (g : LibGlobals) (nameKnown : Bool) (me : Nat) : Nat :=
  if gatherFlag g then (if me = 0 then 1 else 0)
  else if nameKnown then 0 else 1

/-- Number of warnings emitted by rank `me` during one call to
`lammps_scatter_atoms` (library.cpp:854-858 guarded by `me == 0`,
library.cpp:864-868 unguarded). -/
def scatterWarnings (g : LibGlobals) (nameKnown : Bool) (me : Nat) : Nat :=
  if scatterFlag g then (if me = 0 then 1 else 0)
  else if nameKnown then 0 else 1

/-- One rank of the partition, as seen by a single gather/scatter call:
`atom->nlocal`, the tag array `atom->tag`, and the per-atom storage returned by
`atom->extract(name)` viewed as a flat vector (`count == 1` paths) or as an
array-of-arrays (`count > 1` paths). -/
structure RankField where
  nlocal : Nat
  tag : Nat → Nat
  vec : Nat → Int
  arr : Nat → Nat → Int

/-- The inner component loop of the `count > 1` gather staging code
(`offset = count*(tag[i]-1); for (j = 0; j < count; j++) copy[offset++] = ...`):
writes `v j` at `off + j` for `j = 0 .. count-1`. -/
def writeComps (count off : Nat) (v : Nat → Int) (buf : Nat → Int) : Nat → Int :=
  (List.range count).foldl (fun b j => Function.update b (off + j) (v j)) buf

/-- The outer atom loop of the `count > 1` gather staging code, over an
arbitrary list of local slots (`List.range nlocal` in the code); `val i j` is
the value the code reads for slot `i`, component `j`. -/
def gatherGo (count : Nat) (tag : Nat → Nat) (val : Nat → Nat → Int)
    (l : List Nat) (buf : Nat → Int) : Nat → Int :=
  l.foldl (fun b i => writeComps count (count * (tag i - 1)) (val i) b) buf

/-- Staging buffer (`copy`) of the `count > 1` gather paths: zero-initialized
(library.cpp:781 / 807), then one `writeComps` per local atom. -/
def gatherCopy (count nlocal : Nat) (tag : Nat → Nat) (val : Nat → Nat → Int) :
    Nat → Int :=
  gatherGo count tag val (List.range nlocal) (fun _ => 0)

/-- Staging buffer of the integer `count > 1` gather path
(library.cpp:789-794): the code reads `array[i][0]` for every component `j`. -/
def gatherCopyIntArr (count nlocal : Nat) (tag : Nat → Nat)
    (arr : Nat → Nat → Int) : Nat → Int :=
  gatherCopy count nlocal tag (fun i _ => arr i 0)

/-- Staging buffer of the double `count > 1` gather path (library.cpp:815-821):
the code reads `array[i][j]` for component `j`. -/
def gatherCopyDblArr (count nlocal : Nat) (tag : Nat → Nat)
    (arr : Nat → Nat → Int) : Nat → Int :=
  gatherCopy count nlocal tag (fun i j => arr i j)

/-- The `count == 1` gather staging loop (library.cpp:786-788 and 812-814):
`copy[tag[i]-1] = vector[i]`, over an arbitrary slot list. -/
def gatherGoVec (tag : Nat → Nat) (vec : Nat → Int) (l : List Nat)
    (buf : Nat → Int) : Nat → Int :=
  l.foldl (fun b i => Function.update b (tag i - 1) (vec i)) buf

/-- Staging buffer of the `count == 1` gather paths, zero-initialized. -/
def gatherCopyVec (nlocal : Nat) (tag : Nat → Nat) (vec : Nat → Int) :
    Nat → Int :=
  gatherGoVec tag vec (List.range nlocal) (fun _ => 0)

/-- Model of `MPI_Allreduce(copy, data, n, ..., MPI_SUM, world)`
(library.cpp:796 / 823): element-wise sum of the per-rank staging buffers;
every rank receives this same result. -/
def allreduceSum (bufs : List (Nat → Int)) : Nat → Int :=
  fun k => (bufs.map (fun b => b k)).sum

/-- Result buffer of the integer `count > 1` gather path across the whole
process group. -/
def gatherAtomsIntArr (count : Nat) (ranks : List RankField) : Nat → Int :=
  allreduceSum (ranks.map fun r => gatherCopyIntArr count r.nlocal r.tag r.arr)

/-- Result buffer of the double `count > 1` gather path across the whole
process group. -/
def gatherAtomsDblArr (count : Nat) (ranks : List RankField) : Nat → Int :=
  allreduceSum (ranks.map fun r => gatherCopyDblArr count r.nlocal r.tag r.arr)

/-- Result buffer of the `count == 1` gather paths across the whole process
group. -/
def gatherAtomsVec (ranks : List RankField) : Nat → Int :=
  allreduceSum (ranks.map fun r => gatherCopyVec r.nlocal r.tag r.vec)

/-- Embedding of `lammps_gather_atoms` (library.cpp:741-828) at the level of
the caller-visible destination buffer `data`: on a precondition failure
(library.cpp:754-758) or an unresolved field name (library.cpp:764-767) the
function returns before writing anything, leaving `data` untouched; otherwise
`data` receives the all-reduced staging buffer of the selected path. -/
def lammps_gather_atoms (g : LibGlobals) (nameKnown : Bool) (type : Int)
    (count : Nat) (ranks : List RankField) (data : Nat → Int) : Nat → Int :=
  if gatherFlag g then data
  else if !nameKnown then data
  else if type = 0 then
    if count = 1 then gatherAtomsVec ranks
    else gatherAtomsIntArr count ranks
  else
    if count = 1 then gatherAtomsVec ranks
    else gatherAtomsDblArr count ranks

/-- Write of `array[m][j] = x` on the array-of-arrays view of local storage. -/
def setComp (a : Nat → Nat → Int) (m j : Nat) (x : Int) : Nat → Nat → Int :=
  Function.update a m (Function.update (a m) j x)

/-- The inner component loop of the `count > 1` scatter paths
(`offset = count*i; for (j = 0; j < count; j++) array[m][j] = dptr[offset++];`,
library.cpp:888-890 / 907-909). -/
def scatRowWrite (count off : Nat) (dptr : Nat → Int) (m : Nat)
    (a : Nat → Nat → Int) : Nat → Nat → Int :=
  (List.range count).foldl (fun a2 j => setComp a2 m j (dptr (off + j))) a

/-- The outer tag loop of the `count > 1` scatter paths, over an arbitrary
list of zero-based indices `i` (the code uses `List.range natoms`, tag
`i + 1`): the row write happens only when `atom->map(i+1) >= 0`
(library.cpp:886-891 / 905-911). -/
def scatterGo (count : Nat) (amap : Nat → Int) (dptr : Nat → Int)
    (l : List Nat) (a : Nat → Nat → Int) : Nat → Nat → Int :=
  l.foldl
    (fun acc i =>
      if 0 ≤ amap (i + 1) then
        scatRowWrite count (count * i) dptr (amap (i + 1)).toNat acc
      else acc)
    a

/-- Local per-atom storage after the `count > 1` scatter paths
(library.cpp:885-892 and 904-912; both numeric kinds are modelled over
`Int`). -/
def scatterArray (count natoms : Nat) (amap : Nat → Int) (dptr : Nat → Int)
    (arr : Nat → Nat → Int) : Nat → Nat → Int :=
  scatterGo count amap dptr (List.range natoms) arr

/-- The `count == 1` scatter loop over an arbitrary index list
(`if ((m = atom->map(i+1)) >= 0) vector[m] = dptr[i];`,
library.cpp:881-884 / 900-903). -/
def scatterGoVec (amap : Nat → Int) (dptr : Nat → Int) (l : List Nat)
    (v : Nat → Int) : Nat → Int :=
  l.foldl
    (fun acc i =>
      if 0 ≤ amap (i + 1) then
        Function.update acc (amap (i + 1)).toNat (dptr i)
      else acc)
    v

/-- Local per-atom storage after the `count == 1` scatter paths. -/
def scatterVector (natoms : Nat) (amap : Nat → Int) (dptr : Nat → Int)
    (v : Nat → Int) : Nat → Int :=
  scatterGoVec amap dptr (List.range natoms) v

/-- Embedding of `lammps_scatter_atoms` (library.cpp:840-916) for one rank: on
a precondition failure (library.cpp:854-858) or an unresolved field name
(library.cpp:864-868) the function returns before mutating anything, leaving
the local storage `r` untouched; otherwise the selected path rewrites the
slots resolved by the map `amap` of this rank.  Scatter performs no collective
communication: the result depends only on the local `amap`, `r` and the
source buffer `dptr`. -/
def lammps_scatter_atoms (g : LibGlobals) (nameKnown : Bool) (type : Int)
    (count : Nat) (amap : Nat → Int) (dptr : Nat → Int) (r : RankField) :
    RankField :=
  if scatterFlag g then r
  else if !nameKnown then r
  else if type = 0 then
    if count = 1 then
      { r with vec := scatterVector g.natoms.toNat amap dptr r.vec }
    else
      { r with arr := scatterArray count g.natoms.toNat amap dptr r.arr }
  else
    if count = 1 then
      { r with vec := scatterVector g.natoms.toNat amap dptr r.vec }
    else
      { r with arr := scatterArray count g.natoms.toNat amap dptr r.arr }

/-- One iteration of the buffer construction loop of `lammps_commands_list`
(library.cpp:248-256): the command `c` is copied to the end of the buffer and
a newline is appended when the last character written so far (`str[n-1]`) is
not already a newline. -/
def commandsStep (acc c : List Char) : List Char :=
  let acc2 := acc ++ c
  if acc2.getLast? ≠ some '\n' then acc2 ++ ['\n'] else acc2

/-- Embedding of the buffer construction of `lammps_commands_list`
(library.cpp:237-260): the loop over the command list starting from the empty
buffer (`str[0] = 0; n = 0;`).  The returned value is the string handed to
`lammps_commands_string` at library.cpp:258; the transient allocation
(`smalloc`/`sfree`) has no effect on the value. -/
def lammps_commands_list (cmds : List (List Char)) : List Char :=
  cmds.foldl commandsStep []

/-- Spec-side description of the buffer of `lammps_commands_list`, written
from the words of the claim: the concatenation of the commands in order with
exactly one newline appended after each command that does not already end in a
newline. -/
def commandsConcatSpec (cmds : List (List Char)) : List Char :=
  (cmds.map (fun c => if c.getLast? = some '\n' then c else c ++ ['\n'])).flatten

/-- The first `n` entries of a buffer, as a list: the caller-visible content
of a length-`n` destination buffer. -/
def bufList (n : Nat) (b : Nat → Int) : List Int :=
  (List.range n).map b

/-- A valid partitioning of `natoms` atoms across the ranks of `E`, carrying
field values keyed by tag: tags of local atoms are at least 1, the per-atom
values are a function `V` (array view) and `Vv` (vector view) of the tag
alone, and every tag `t + 1` with `t < natoms` is held by exactly one local
slot across all ranks (the rank partitions are disjoint and exhaustive). -/
def GoodPartition (natoms count : Nat) (V : Nat → Nat → Int) (Vv : Nat → Int)
    (E : List RankField) : Prop :=
  (∀ r ∈ E, ∀ i, i < r.nlocal → 1 ≤ r.tag i) ∧
  (∀ r ∈ E, ∀ i, i < r.nlocal → ∀ j, j < count → r.arr i j = V (r.tag i) j) ∧
  (∀ r ∈ E, ∀ i, i < r.nlocal → r.vec i = Vv (r.tag i)) ∧
  (∀ t, t < natoms →
    (E.map (fun r =>
      ((List.range r.nlocal).filter (fun i => r.tag i == t + 1)).length)).sum
      = 1)

/-- A single rank owning the single atom of a one-atom system, with a
three-component integer field whose components 10, 20, 30 differ. -/
def rBug : RankField :=
  { nlocal := 1
    tag := fun _ => 1
    vec := fun _ => 0
    arr := fun i j =>
      if i = 0 then (if j = 0 then 10 else if j = 1 then 20 else 30) else 0 }

/-- Tag-to-local-slot map of the one-rank, one-atom system: tag 1 lives in
slot 0, every other tag is unknown. -/
def amapBug : Nat → Int :=
  fun t => if t = 1 then 0 else -1

/-- Globals of the one-rank, one-atom system: tags enabled and consecutive,
one atom, map enabled. -/
def gRt : LibGlobals :=
  { natoms := 1, tag_enable := true, tag_consecutive := true, map_style := 1
    nprocs := 1 }

/-- Globals with every gather/scatter precondition satisfied (used to reach
the unknown-property-name branch). -/
def gOk : LibGlobals :=
  { natoms := 5, tag_enable := true, tag_consecutive := true, map_style := 1
    nprocs := 2 }

/-- Globals with tags disabled (precondition failure) on a group of 3
ranks. -/
def gBad : LibGlobals :=
  { natoms := 5, tag_enable := false, tag_consecutive := true, map_style := 1
    nprocs := 3 }

/-- Globals whose only precondition failure is the missing atom map
(`map_style == 0`). -/
def gNoMap : LibGlobals :=
  { natoms := 5, tag_enable := true, tag_consecutive := true, map_style := 0
    nprocs := 3 }

theorem mul_add_lt_inj {count a b j k : Nat} (hj : j < count) (hk : k < count)
    (h : count * a + j = count * b + k) : a = b ∧ j = k := by
  have h0 : 0 < count := Nat.lt_of_le_of_lt (Nat.zero_le j) hj
  have h1 : (count * a + j) / count = a := by
    rw [Nat.mul_add_div h0, Nat.div_eq_of_lt hj, Nat.add_zero]
  have h2 : (count * b + k) / count = b := by
    rw [Nat.mul_add_div h0, Nat.div_eq_of_lt hk, Nat.add_zero]
  have hab : a = b := by rw [← h1, ← h2, h]
  subst hab
  exact ⟨rfl, Nat.add_left_cancel h⟩

theorem writeComps_succ (n off : Nat) (v : Nat → Int) (buf : Nat → Int) :
    writeComps (n + 1) off v buf =
      Function.update (writeComps n off v buf) (off + n) (v n) := by
  unfold writeComps
  rw [List.range_succ, List.foldl_append]
  rfl

theorem writeComps_out :
    ∀ (count off : Nat) (v : Nat → Int) (buf : Nat → Int) (k : Nat),
      (∀ j, j < count → k ≠ off + j) → writeComps count off v buf k = buf k := by
  intro count
  induction count with
  | zero => intro off v buf k _; rfl
  | succ n ih =>
    intro off v buf k hk
    rw [writeComps_succ, Function.update_noteq (hk n (Nat.lt_succ_self n))]
    exact ih off v buf k (fun j hj => hk j (Nat.lt_succ_of_lt hj))

theorem writeComps_in :
    ∀ (count j off : Nat) (v : Nat → Int) (buf : Nat → Int),
      j < count → writeComps count off v buf (off + j) = v j := by
  intro count
  induction count with
  | zero => intro j off v buf hj; exact absurd hj (Nat.not_lt_zero j)
  | succ n ih =>
    intro j off v buf hj
    rw [writeComps_succ]
    by_cases hjn : j = n
    · subst hjn
      rw [Function.update_same]
    · have hne : off + j ≠ off + n := by omega
      rw [Function.update_noteq hne]
      exact ih j off v buf (by omega)

theorem mem_of_getLast?_eq_some {α : Type} {l : List α} {a : α}
    (h : l.getLast? = some a) : a ∈ l := by
  obtain ⟨hne, heq⟩ := List.mem_getLast?_eq_getLast (l := l) (x := a) h
  rw [heq]
  exact List.getLast_mem hne

theorem gatherGo_read (count : Nat) (tag : Nat → Nat) (val : Nat → Nat → Int)
    (t j : Nat) (ht : 1 ≤ t) (hj : j < count) :
    ∀ (l : List Nat) (buf : Nat → Int), (∀ i ∈ l, 1 ≤ tag i) →
      gatherGo count tag val l buf (count * (t - 1) + j) =
        match (l.filter (fun i => tag i == t)).getLast? with
        | some i0 => val i0 j
        | none => buf (count * (t - 1) + j) := by
  intro l
  induction l with
  | nil => intro buf _; rfl
  | cons a l ih =>
    intro buf hall
    have ha : 1 ≤ tag a := hall a (List.mem_cons_self a l)
    have hstep : gatherGo count tag val (a :: l) buf =
        gatherGo count tag val l
          (writeComps count (count * (tag a - 1)) (val a) buf) := rfl
    rw [hstep, ih _ (fun i hi => hall i (List.mem_cons_of_mem a hi))]
    by_cases hta : tag a = t
    · have hpa : ((fun i => tag i == t) a) = true := by simp [hta]
      rw [@List.filter_cons_of_pos _ (fun i => tag i == t) a l hpa]
      cases hfl : l.filter (fun i => tag i == t) with
      | nil =>
        show writeComps count (count * (tag a - 1)) (val a) buf
            (count * (t - 1) + j) = val a j
        rw [hta]
        exact writeComps_in count j (count * (t - 1)) (val a) buf hj
      | cons b l2 =>
        rw [List.getLast?_cons_cons]
        cases hx : (b :: l2).getLast? with
        | none =>
          exact absurd (List.getLast?_eq_none_iff.mp hx) (by simp)
        | some x => rfl
    · have hpa : ¬ ((fun i => tag i == t) a) = true := by simp [hta]
      rw [@List.filter_cons_of_neg _ (fun i => tag i == t) a l hpa]
      cases hfl : (l.filter (fun i => tag i == t)).getLast? with
      | some i0 => rfl
      | none =>
        show writeComps count (count * (tag a - 1)) (val a) buf
            (count * (t - 1) + j) = buf (count * (t - 1) + j)
        apply writeComps_out
        intro j2 hj2 heq
        obtain ⟨h1, h2⟩ := mul_add_lt_inj hj hj2 heq
        exact hta (by omega)

theorem gatherGoVec_read (tag : Nat → Nat) (vec : Nat → Int) (t : Nat)
    (ht : 1 ≤ t) :
    ∀ (l : List Nat) (buf : Nat → Int), (∀ i ∈ l, 1 ≤ tag i) →
      gatherGoVec tag vec l buf (t - 1) =
        match (l.filter (fun i => tag i == t)).getLast? with
        | some i0 => vec i0
        | none => buf (t - 1) := by
  intro l
  induction l with
  | nil => intro buf _; rfl
  | cons a l ih =>
    intro buf hall
    have ha : 1 ≤ tag a := hall a (List.mem_cons_self a l)
    have hstep : gatherGoVec tag vec (a :: l) buf =
        gatherGoVec tag vec l (Function.update buf (tag a - 1) (vec a)) := rfl
    rw [hstep, ih _ (fun i hi => hall i (List.mem_cons_of_mem a hi))]
    by_cases hta : tag a = t
    · have hpa : ((fun i => tag i == t) a) = true := by simp [hta]
      rw [@List.filter_cons_of_pos _ (fun i => tag i == t) a l hpa]
      cases hfl : l.filter (fun i => tag i == t) with
      | nil =>
        show Function.update buf (tag a - 1) (vec a) (t - 1) = vec a
        rw [hta, Function.update_same]
      | cons b l2 =>
        rw [List.getLast?_cons_cons]
        cases hx : (b :: l2).getLast? with
        | none =>
          exact absurd (List.getLast?_eq_none_iff.mp hx) (by simp)
        | some x => rfl
    · have hpa : ¬ ((fun i => tag i == t) a) = true := by simp [hta]
      rw [@List.filter_cons_of_neg _ (fun i => tag i == t) a l hpa]
      cases hfl : (l.filter (fun i => tag i == t)).getLast? with
      | some i0 => rfl
      | none =>
        show Function.update buf (tag a - 1) (vec a) (t - 1) = buf (t - 1)
        exact Function.update_noteq (show t - 1 ≠ tag a - 1 by omega) (vec a) buf

theorem sum_indicator_range (n : Nat) (h : 0 < n) :
    ((List.range n).map (fun me => if me = 0 then (1 : Nat) else 0)).sum = 1 := by
  induction n with
  | zero => exact absurd h (Nat.lt_irrefl 0)
  | succ m ih =>
    rw [List.range_succ, List.map_append, List.sum_append]
    cases Nat.eq_zero_or_pos m with
    | inl h0 => subst h0; rfl
    | inr hm =>
      rw [ih hm]
      have hm0 : m ≠ 0 := Nat.pos_iff_ne_zero.mp hm
      simp [hm0]

theorem sum_map_of_unit_counts {α : Type} (x : Int) :
    ∀ (E : List α) (f : α → Nat) (g : α → Int),
      (∀ r ∈ E, g r = if f r = 0 then 0 else x) →
      (E.map f).sum = 1 → (E.map g).sum = x := by
  intro E
  induction E with
  | nil => intro f g _ h1; simp at h1
  | cons r E ih =>
    intro f g hg h1
    rw [List.map_cons, List.sum_cons] at h1 ⊢
    by_cases hfr : f r = 0
    · rw [hg r (List.mem_cons_self r E), if_pos hfr]
      rw [hfr, Nat.zero_add] at h1
      rw [ih f g (fun a ha => hg a (List.mem_cons_of_mem r ha)) h1, zero_add]
    · rw [hg r (List.mem_cons_self r E), if_neg hfr]
      have h2 : (E.map f).sum = 0 := by omega
      have h3 : ∀ y ∈ E.map g, y = 0 := by
        intro y hy
        obtain ⟨a, ha, rfl⟩ := List.mem_map.mp hy
        have hfa : f a = 0 :=
          List.sum_eq_zero_iff.mp h2 (f a) (List.mem_map_of_mem f ha)
        rw [hg a (List.mem_cons_of_mem r ha), if_pos hfa]
      rw [List.sum_eq_zero h3, add_zero]

theorem filter_range_eq_singleton (p : Nat → Bool) :
    ∀ (n k : Nat), k < n → p k = true → (∀ i, i < n → p i = true → i = k) →
      (List.range n).filter p = [k] := by
  intro n
  induction n with
  | zero => intro k hk; exact absurd hk (Nat.not_lt_zero k)
  | succ m ih =>
    intro k hk hpk huniq
    rw [List.range_succ, List.filter_append]
    by_cases hkm : k = m
    · subst hkm
      have h1 : (List.range k).filter p = [] := by
        rw [List.filter_eq_nil_iff]
        intro a ha hpa
        have h2 : a < k := List.mem_range.mp ha
        have h3 : a = k := huniq a (Nat.lt_succ_of_lt h2) hpa
        omega
      rw [h1]
      simp [hpk]
    · have hkm2 : k < m := by omega
      rw [ih k hkm2 hpk (fun i hi hpi => huniq i (Nat.lt_succ_of_lt hi) hpi)]
      have hpm : p m = false := by
        cases hq : p m with
        | false => rfl
        | true => exact absurd (huniq m (Nat.lt_succ_self m) hq).symm hkm
      simp [hpm]

theorem filter_range_eq_nil (p : Nat → Bool) (n : Nat)
    (h : ∀ i, i < n → p i = false) : (List.range n).filter p = [] := by
  rw [List.filter_eq_nil_iff]
  intro a ha hpa
  rw [h a (List.mem_range.mp ha)] at hpa
  exact Bool.false_ne_true hpa

theorem bufList_congr (n : Nat) (f g : Nat → Int)
    (h : ∀ k, k < n → f k = g k) : bufList n f = bufList n g := by
  unfold bufList
  exact List.map_congr_left (fun k hk => h k (List.mem_range.mp hk))

theorem scatRowWrite_succ (n off : Nat) (dptr : Nat → Int) (m : Nat)
    (a : Nat → Nat → Int) :
    scatRowWrite (n + 1) off dptr m a =
      setComp (scatRowWrite n off dptr m a) m n (dptr (off + n)) := by
  unfold scatRowWrite
  rw [List.range_succ, List.foldl_append]
  rfl

theorem scatRowWrite_other :
    ∀ (count off m : Nat) (dptr : Nat → Int) (a : Nat → Nat → Int) (s j : Nat),
      s ≠ m → scatRowWrite count off dptr m a s j = a s j := by
  intro count
  induction count with
  | zero => intro off m dptr a s j _; rfl
  | succ n ih =>
    intro off m dptr a s j hsm
    rw [scatRowWrite_succ]
    unfold setComp
    rw [Function.update_noteq hsm]
    exact ih off m dptr a s j hsm

theorem scatRowWrite_in :
    ∀ (count j off m : Nat) (dptr : Nat → Int) (a : Nat → Nat → Int),
      j < count → scatRowWrite count off dptr m a m j = dptr (off + j) := by
  intro count
  induction count with
  | zero => intro j off m dptr a hj; exact absurd hj (Nat.not_lt_zero j)
  | succ n ih =>
    intro j off m dptr a hj
    rw [scatRowWrite_succ]
    unfold setComp
    rw [Function.update_same]
    by_cases hjn : j = n
    · subst hjn
      rw [Function.update_same]
    · rw [Function.update_noteq hjn]
      exact ih j off m dptr a (by omega)

theorem scatterGo_read (count : Nat) (amap : Nat → Int) (dptr : Nat → Int)
    (s j : Nat) (hj : j < count) :
    ∀ (l : List Nat) (a : Nat → Nat → Int),
      scatterGo count amap dptr l a s j =
        match (l.filter (fun i =>
            decide (0 ≤ amap (i + 1)) && ((amap (i + 1)).toNat == s))).getLast?
          with
        | some i0 => dptr (count * i0 + j)
        | none => a s j := by
  intro l
  induction l with
  | nil => intro a; rfl
  | cons b l ih =>
    intro a
    have hstep : scatterGo count amap dptr (b :: l) a =
        scatterGo count amap dptr l
          (if 0 ≤ amap (b + 1) then
            scatRowWrite count (count * b) dptr (amap (b + 1)).toNat a
          else a) := rfl
    rw [hstep, ih]
    by_cases hb : 0 ≤ amap (b + 1) ∧ (amap (b + 1)).toNat = s
    · have hpb : ((fun i =>
          decide (0 ≤ amap (i + 1)) && ((amap (i + 1)).toNat == s)) b) = true := by
        simp [hb.1, hb.2]
      rw [@List.filter_cons_of_pos _
        (fun i => decide (0 ≤ amap (i + 1)) && ((amap (i + 1)).toNat == s)) b l hpb]
      cases hfl : l.filter (fun i =>
          decide (0 ≤ amap (i + 1)) && ((amap (i + 1)).toNat == s)) with
      | nil =>
        show (if 0 ≤ amap (b + 1) then
            scatRowWrite count (count * b) dptr (amap (b + 1)).toNat a
          else a) s j = dptr (count * b + j)
        rw [if_pos hb.1, ← hb.2]
        exact scatRowWrite_in count j (count * b) (amap (b + 1)).toNat dptr a hj
      | cons c l2 =>
        rw [List.getLast?_cons_cons]
        cases hx : (c :: l2).getLast? with
        | none =>
          exact absurd (List.getLast?_eq_none_iff.mp hx) (by simp)
        | some x => rfl
    · have hpb : ¬ ((fun i =>
          decide (0 ≤ amap (i + 1)) && ((amap (i + 1)).toNat == s)) b) = true := by
        simp only [Bool.and_eq_true, decide_eq_true_eq, beq_iff_eq]
        exact hb
      rw [@List.filter_cons_of_neg _
        (fun i => decide (0 ≤ amap (i + 1)) && ((amap (i + 1)).toNat == s)) b l hpb]
      cases hfl : (l.filter (fun i =>
          decide (0 ≤ amap (i + 1)) && ((amap (i + 1)).toNat == s))).getLast? with
      | some i0 => rfl
      | none =>
        show (if 0 ≤ amap (b + 1) then
            scatRowWrite count (count * b) dptr (amap (b + 1)).toNat a
          else a) s j = a s j
        by_cases hge : 0 ≤ amap (b + 1)
        · rw [if_pos hge]
          have hne : s ≠ (amap (b + 1)).toNat := fun hc => hb ⟨hge, hc.symm⟩
          exact scatRowWrite_other count (count * b) (amap (b + 1)).toNat dptr a s j hne
        · rw [if_neg hge]

theorem scatterGo_frame (count : Nat) (amap : Nat → Int) (dptr : Nat → Int)
    (s j : Nat) :
    ∀ (l : List Nat) (a : Nat → Nat → Int),
      (∀ i ∈ l, ¬ (0 ≤ amap (i + 1) ∧ (amap (i + 1)).toNat = s)) →
      scatterGo count amap dptr l a s j = a s j := by
  intro l
  induction l with
  | nil => intro a _; rfl
  | cons b l ih =>
    intro a hall
    have hb := hall b (List.mem_cons_self b l)
    have hstep : scatterGo count amap dptr (b :: l) a =
        scatterGo count amap dptr l
          (if 0 ≤ amap (b + 1) then
            scatRowWrite count (count * b) dptr (amap (b + 1)).toNat a
          else a) := rfl
    rw [hstep, ih _ (fun i hi => hall i (List.mem_cons_of_mem b hi))]
    by_cases hge : 0 ≤ amap (b + 1)
    · rw [if_pos hge]
      have hne : s ≠ (amap (b + 1)).toNat := fun hc => hb ⟨hge, hc.symm⟩
      exact scatRowWrite_other count (count * b) (amap (b + 1)).toNat dptr a s j hne
    · rw [if_neg hge]

theorem scatterGoVec_read (amap : Nat → Int) (dptr : Nat → Int) (s : Nat) :
    ∀ (l : List Nat) (v : Nat → Int),
      scatterGoVec amap dptr l v s =
        match (l.filter (fun i =>
            decide (0 ≤ amap (i + 1)) && ((amap (i + 1)).toNat == s))).getLast?
          with
        | some i0 => dptr i0
        | none => v s := by
  intro l
  induction l with
  | nil => intro v; rfl
  | cons b l ih =>
    intro v
    have hstep : scatterGoVec amap dptr (b :: l) v =
        scatterGoVec amap dptr l
          (if 0 ≤ amap (b + 1) then
            Function.update v (amap (b + 1)).toNat (dptr b)
          else v) := rfl
    rw [hstep, ih]
    by_cases hb : 0 ≤ amap (b + 1) ∧ (amap (b + 1)).toNat = s
    · have hpb : ((fun i =>
          decide (0 ≤ amap (i + 1)) && ((amap (i + 1)).toNat == s)) b) = true := by
        simp [hb.1, hb.2]
      rw [@List.filter_cons_of_pos _
        (fun i => decide (0 ≤ amap (i + 1)) && ((amap (i + 1)).toNat == s)) b l hpb]
      cases hfl : l.filter (fun i =>
          decide (0 ≤ amap (i + 1)) && ((amap (i + 1)).toNat == s)) with
      | nil =>
        show (if 0 ≤ amap (b + 1) then
            Function.update v (amap (b + 1)).toNat (dptr b)
          else v) s = dptr b
        rw [if_pos hb.1, ← hb.2, Function.update_same]
      | cons c l2 =>
        rw [List.getLast?_cons_cons]
        cases hx : (c :: l2).getLast? with
        | none =>
          exact absurd (List.getLast?_eq_none_iff.mp hx) (by simp)
        | some x => rfl
    · have hpb : ¬ ((fun i =>
          decide (0 ≤ amap (i + 1)) && ((amap (i + 1)).toNat == s)) b) = true := by
        simp only [Bool.and_eq_true, decide_eq_true_eq, beq_iff_eq]
        exact hb
      rw [@List.filter_cons_of_neg _
        (fun i => decide (0 ≤ amap (i + 1)) && ((amap (i + 1)).toNat == s)) b l hpb]
      cases hfl : (l.filter (fun i =>
          decide (0 ≤ amap (i + 1)) && ((amap (i + 1)).toNat == s))).getLast? with
      | some i0 => rfl
      | none =>
        show (if 0 ≤ amap (b + 1) then
            Function.update v (amap (b + 1)).toNat (dptr b)
          else v) s = v s
        by_cases hge : 0 ≤ amap (b + 1)
        · rw [if_pos hge]
          have hne : s ≠ (amap (b + 1)).toNat := fun hc => hb ⟨hge, hc.symm⟩
          exact Function.update_noteq hne (dptr b) v
        · rw [if_neg hge]

theorem scatterGoVec_frame (amap : Nat → Int) (dptr : Nat → Int) (s : Nat) :
    ∀ (l : List Nat) (v : Nat → Int),
      (∀ i ∈ l, ¬ (0 ≤ amap (i + 1) ∧ (amap (i + 1)).toNat = s)) →
      scatterGoVec amap dptr l v s = v s := by
  intro l
  induction l with
  | nil => intro v _; rfl
  | cons b l ih =>
    intro v hall
    have hb := hall b (List.mem_cons_self b l)
    have hstep : scatterGoVec amap dptr (b :: l) v =
        scatterGoVec amap dptr l
          (if 0 ≤ amap (b + 1) then
            Function.update v (amap (b + 1)).toNat (dptr b)
          else v) := rfl
    rw [hstep, ih _ (fun i hi => hall i (List.mem_cons_of_mem b hi))]
    by_cases hge : 0 ≤ amap (b + 1)
    · rw [if_pos hge]
      have hne : s ≠ (amap (b + 1)).toNat := fun hc => hb ⟨hge, hc.symm⟩
      exact Function.update_noteq hne (dptr b) v
    · rw [if_neg hge]

theorem gather_canonical (count : Nat) (E : List RankField)
    (valOf : RankField → Nat → Nat → Int) (W : Nat → Nat → Int)
    (t j : Nat) (ht : 1 ≤ t) (hj : j < count)
    (htags : ∀ r ∈ E, ∀ i, i < r.nlocal → 1 ≤ r.tag i)
    (hval : ∀ r ∈ E, ∀ i, i < r.nlocal → r.tag i = t → valOf r i j = W t j)
    (huniq : (E.map (fun r =>
      ((List.range r.nlocal).filter (fun i => r.tag i == t)).length)).sum = 1) :
    allreduceSum (E.map fun r => gatherCopy count r.nlocal r.tag (valOf r))
      (count * (t - 1) + j) = W t j := by
  show ((E.map fun r => gatherCopy count r.nlocal r.tag (valOf r)).map
      (fun b => b (count * (t - 1) + j))).sum = W t j
  rw [List.map_map]
  refine sum_map_of_unit_counts (W t j) E
    (fun r => ((List.range r.nlocal).filter (fun i => r.tag i == t)).length)
    _ ?_ huniq
  intro r hr
  show gatherCopy count r.nlocal r.tag (valOf r) (count * (t - 1) + j) = _
  unfold gatherCopy
  rw [gatherGo_read count r.tag (valOf r) t j ht hj (List.range r.nlocal)
    (fun _ => 0) (fun i hi => htags r hr i (List.mem_range.mp hi))]
  cases hfl : ((List.range r.nlocal).filter (fun i => r.tag i == t)).getLast?
    with
  | none =>
    have hnil : (List.range r.nlocal).filter (fun i => r.tag i == t) = [] :=
      List.getLast?_eq_none_iff.mp hfl
    simp [hnil]
  | some i0 =>
    have hmem : i0 ∈ (List.range r.nlocal).filter (fun i => r.tag i == t) :=
      mem_of_getLast?_eq_some hfl
    have h2 := List.mem_filter.mp hmem
    have hlen :
        ((List.range r.nlocal).filter (fun i => r.tag i == t)).length ≠ 0 := by
      intro h0
      rw [List.length_eq_zero] at h0
      rw [h0] at hmem
      exact absurd hmem (List.not_mem_nil i0)
    show valOf r i0 j =
      if ((List.range r.nlocal).filter (fun i => r.tag i == t)).length = 0
      then 0 else W t j
    rw [if_neg hlen]
    exact hval r hr i0 (List.mem_range.mp h2.1) (by simpa using h2.2)

theorem gatherAtomsDblArr_canonical (count natoms : Nat) (V : Nat → Nat → Int)
    (Vv : Nat → Int) (E : List RankField)
    (hE : GoodPartition natoms count V Vv E)
    (t j : Nat) (ht : 1 ≤ t) (htn : t ≤ natoms) (hj : j < count) :
    gatherAtomsDblArr count E (count * (t - 1) + j) = V t j := by
  obtain ⟨htags, harr, _, huniq⟩ := hE
  have hu := huniq (t - 1) (by omega)
  have ht1 : t - 1 + 1 = t := by omega
  rw [ht1] at hu
  unfold gatherAtomsDblArr gatherCopyDblArr
  exact gather_canonical count E (fun r i j2 => r.arr i j2) V t j ht hj htags
    (fun r hr i hi hti => by
      show r.arr i j = V t j
      rw [harr r hr i hi j hj, hti]) hu

theorem gatherAtomsIntArr_canonical (count natoms : Nat) (V : Nat → Nat → Int)
    (Vv : Nat → Int) (E : List RankField)
    (hE : GoodPartition natoms count V Vv E)
    (t j : Nat) (ht : 1 ≤ t) (htn : t ≤ natoms) (hj : j < count) :
    gatherAtomsIntArr count E (count * (t - 1) + j) = V t 0 := by
  obtain ⟨htags, harr, _, huniq⟩ := hE
  have hu := huniq (t - 1) (by omega)
  have ht1 : t - 1 + 1 = t := by omega
  rw [ht1] at hu
  unfold gatherAtomsIntArr gatherCopyIntArr
  exact gather_canonical count E (fun r i _ => r.arr i 0) (fun t2 _ => V t2 0)
    t j ht hj htags
    (fun r hr i hi hti => by
      show r.arr i 0 = V t 0
      rw [harr r hr i hi 0 (Nat.lt_of_le_of_lt (Nat.zero_le j) hj), hti]) hu

theorem gatherAtomsVec_canonical (natoms count : Nat) (V : Nat → Nat → Int)
    (Vv : Nat → Int) (E : List RankField)
    (hE : GoodPartition natoms count V Vv E)
    (t : Nat) (ht : 1 ≤ t) (htn : t ≤ natoms) :
    gatherAtomsVec E (t - 1) = Vv t := by
  obtain ⟨htags, _, hvec, huniq⟩ := hE
  have hu := huniq (t - 1) (by omega)
  have ht1 : t - 1 + 1 = t := by omega
  rw [ht1] at hu
  unfold gatherAtomsVec
  show ((E.map fun r => gatherCopyVec r.nlocal r.tag r.vec).map
      (fun b => b (t - 1))).sum = Vv t
  rw [List.map_map]
  refine sum_map_of_unit_counts (Vv t) E
    (fun r => ((List.range r.nlocal).filter (fun i => r.tag i == t)).length)
    _ ?_ hu
  intro r hr
  show gatherCopyVec r.nlocal r.tag r.vec (t - 1) = _
  unfold gatherCopyVec
  rw [gatherGoVec_read r.tag r.vec t ht (List.range r.nlocal) (fun _ => 0)
    (fun i hi => htags r hr i (List.mem_range.mp hi))]
  cases hfl : ((List.range r.nlocal).filter (fun i => r.tag i == t)).getLast?
    with
  | none =>
    have hnil : (List.range r.nlocal).filter (fun i => r.tag i == t) = [] :=
      List.getLast?_eq_none_iff.mp hfl
    simp [hnil]
  | some i0 =>
    have hmem : i0 ∈ (List.range r.nlocal).filter (fun i => r.tag i == t) :=
      mem_of_getLast?_eq_some hfl
    have h2 := List.mem_filter.mp hmem
    have hlen :
        ((List.range r.nlocal).filter (fun i => r.tag i == t)).length ≠ 0 := by
      intro h0
      rw [List.length_eq_zero] at h0
      rw [h0] at hmem
      exact absurd hmem (List.not_mem_nil i0)
    show r.vec i0 =
      if ((List.range r.nlocal).filter (fun i => r.tag i == t)).length = 0
      then 0 else Vv t
    rw [if_neg hlen]
    rw [hvec r hr i0 (List.mem_range.mp h2.1)]
    have hti : r.tag i0 = t := by simpa using h2.2
    rw [hti]

theorem commands_fold :
    ∀ (cmds : List (List Char)) (acc : List Char), (∀ c ∈ cmds, c ≠ []) →
      cmds.foldl commandsStep acc = acc ++ commandsConcatSpec cmds := by
  intro cmds
  induction cmds with
  | nil => intro acc _; simp [commandsConcatSpec]
  | cons c rest ih =>
    intro acc h
    have hc : c ≠ [] := h c (List.mem_cons_self c rest)
    have hlast : (acc ++ c).getLast? = c.getLast? :=
      List.getLast?_append_of_ne_nil acc hc
    show rest.foldl commandsStep (commandsStep acc c) =
      acc ++ commandsConcatSpec (c :: rest)
    rw [ih (commandsStep acc c) (fun d hd => h d (List.mem_cons_of_mem c hd))]
    unfold commandsConcatSpec
    rw [List.map_cons, List.flatten_cons]
    by_cases hl : c.getLast? = some '\n'
    · have hstep : commandsStep acc c = acc ++ c := by
        unfold commandsStep
        simp [hlast, hl]
      rw [hstep, if_pos hl, List.append_assoc]
    · have hstep : commandsStep acc c = (acc ++ c) ++ ['\n'] := by
        unfold commandsStep
        simp [hlast, hl]
      rw [hstep, if_neg hl]
      simp [List.append_assoc]

/-- C10: for every list of non-empty command strings, `lammps_commands_list`
builds a buffer equal to the concatenation of the commands in order with
exactly one newline appended after each command that does not already end in
a newline (and that buffer is the one handed to `lammps_commands_string`,
freed after the call returns). -/
theorem C10_commands_list_concat (cmds : List (List Char))
    (h : ∀ c ∈ cmds, c ≠ []) :
    lammps_commands_list cmds = commandsConcatSpec cmds := by
  unfold lammps_commands_list
  rw [commands_fold cmds [] h, List.nil_append]

theorem C10_commands_list_concat_witness :
    lammps_commands_list [['a'], ['b', '\n'], ['c']] =
      ['a', '\n', 'b', '\n', 'c', '\n'] :=
  (C10_commands_list_concat [['a'], ['b', '\n'], ['c']] (by decide)).trans
    (by decide)

/-- C9: `lammps_get_natoms` returns 0 whenever the total atom count exceeds
`MAXSMALLINT`, and otherwise returns the count itself (the `static_cast<int>`
is exact there); it never returns a truncated nonzero value for an
out-of-range count. -/
theorem C9_get_natoms_range (natoms : Int) :
    (MAXSMALLINT < natoms → lammps_get_natoms natoms = 0) ∧
    (natoms ≤ MAXSMALLINT → lammps_get_natoms natoms = natoms) := by
  unfold lammps_get_natoms
  constructor
  · intro h; rw [if_pos h]
  · intro h; rw [if_neg (not_lt.mpr h)]

theorem C9_get_natoms_range_witness :
    lammps_get_natoms (2 ^ 31) = 0 ∧ lammps_get_natoms 42 = 42 :=
  ⟨(C9_get_natoms_range (2 ^ 31)).1 (by decide),
   (C9_get_natoms_range 42).2 (by decide)⟩

/-- C1: the claim states that after a gather the destination holds component
`c` of atom tag `t` at offset `count*(t-1)+c` on both numeric paths.  The
double path does (third conjunct), but the integer `count > 1` path copies
`array[i][0]` into every component (library.cpp:793), so at offset
`3*(1-1)+1` the integer gather of the atom with components (10, 20, 30)
returns 10 where the claim requires 20: the code contradicts its own header
comment (library.cpp:736-737) on the integer path. -/
theorem C1_int_path_component_loss :
    lammps_gather_atoms gRt true 0 3 [rBug] (fun _ => 0) (3 * (1 - 1) + 1) = 10
    ∧ rBug.arr 0 1 = 20 ∧
    lammps_gather_atoms gRt true 1 3 [rBug] (fun _ => 0) (3 * (1 - 1) + 1) = 20
    := by decide

/-- C2: the claim states that a gather immediately followed by a scatter of
the identical buffer leaves local storage unchanged for any field.  For the
integer `count = 3` field with components (10, 20, 30) the gather bug of
library.cpp:793 stages component 0 everywhere, so the round trip rewrites
component 1 of the stored array to 10, where it held 20 before. -/
theorem C2_roundtrip_not_identity :
    (lammps_scatter_atoms gRt true 0 3 amapBug
      (lammps_gather_atoms gRt true 0 3 [rBug] (fun _ => 0)) rBug).arr 0 1 = 10
    ∧ rBug.arr 0 1 = 20 := by decide

/-- C3: when tags are disabled, tags are not consecutive, or the atom count
exceeds the 32-bit index bound, both gather and scatter return before doing
any work: the destination buffer and the local storage are untouched, and
exactly one diagnostic is emitted across the whole process group, by rank 0
and by no other rank. -/
theorem C3_precondition_rejection (g : LibGlobals) (nameKnown : Bool)
    (type : Int) (count : Nat) (ranks : List RankField) (data : Nat → Int)
    (amap : Nat → Int) (dptr : Nat → Int) (r : RankField)
    (hfail : g.tag_enable = false ∨ g.tag_consecutive = false ∨
      MAXSMALLINT < g.natoms)
    (hnp : 0 < g.nprocs) :
    lammps_gather_atoms g nameKnown type count ranks data = data ∧
    lammps_scatter_atoms g nameKnown type count amap dptr r = r ∧
    ((List.range g.nprocs).map (gatherWarnings g nameKnown)).sum = 1 ∧
    ((List.range g.nprocs).map (scatterWarnings g nameKnown)).sum = 1 ∧
    gatherWarnings g nameKnown 0 = 1 ∧
    (∀ me, me ≠ 0 → gatherWarnings g nameKnown me = 0) ∧
    scatterWarnings g nameKnown 0 = 1 ∧
    (∀ me, me ≠ 0 → scatterWarnings g nameKnown me = 0) := by
  have hflag : gatherFlag g = true := by
    rcases hfail with h | h | h
    · simp [gatherFlag, h]
    · simp [gatherFlag, h]
    · simp [gatherFlag, h]
  have hsflag : scatterFlag g = true := by simp [scatterFlag, hflag]
  have hgw : ∀ me, gatherWarnings g nameKnown me = if me = 0 then 1 else 0 :=
    fun me => by simp [gatherWarnings, hflag]
  have hsw : ∀ me, scatterWarnings g nameKnown me = if me = 0 then 1 else 0 :=
    fun me => by simp [scatterWarnings, hsflag]
  refine ⟨?_, ?_, ?_, ?_, ?_, ?_, ?_, ?_⟩
  · simp [lammps_gather_atoms, hflag]
  · simp [lammps_scatter_atoms, hsflag]
  · rw [List.map_congr_left (fun me _ => hgw me)]
    exact sum_indicator_range g.nprocs hnp
  · rw [List.map_congr_left (fun me _ => hsw me)]
    exact sum_indicator_range g.nprocs hnp
  · rw [hgw 0]; rfl
  · intro me hme; rw [hgw me, if_neg hme]
  · rw [hsw 0]; rfl
  · intro me hme; rw [hsw me, if_neg hme]

theorem C3_precondition_rejection_witness :
    lammps_gather_atoms gBad true 1 3 [] (fun _ => 5) = (fun _ => 5) ∧
    lammps_scatter_atoms gBad true 1 3 (fun _ => -1) (fun _ => 0) rBug = rBug ∧
    ((List.range gBad.nprocs).map (gatherWarnings gBad true)).sum = 1 ∧
    ((List.range gBad.nprocs).map (scatterWarnings gBad true)).sum = 1 := by
  obtain ⟨h1, h2, h3, h4, _⟩ := C3_precondition_rejection gBad true 1 3 []
    (fun _ => 5) (fun _ => -1) (fun _ => 0) rBug (Or.inl (by decide))
    (by decide)
  exact ⟨h1, h2, h3, h4⟩

/-- C4: the claim states that every failure diagnostic, including the
unknown-field-name diagnostic, is emitted from rank 0 only.  The
unknown-property-name warnings (library.cpp:764-767 and 863-868) are not
guarded by `comm->me == 0`, so a rank with `me = 1` also emits one: with all
preconditions satisfied and an unresolved name, rank 1 emits a diagnostic in
both gather and scatter. -/
theorem C4_unknown_name_warning_every_rank :
    gatherWarnings gOk false 1 = 1 ∧ scatterWarnings gOk false 1 = 1 := by
  decide

/-- C4 (amended): the precondition diagnostics of gather and scatter are
emitted from rank 0 only, and the operations return non-fatally leaving the
buffer and the local storage untouched; the unknown-field-name diagnostic,
however, is emitted once by every rank reaching it (not only by rank 0),
also returning non-fatally with the buffer untouched. -/
theorem C4_diagnostics_amended (g : LibGlobals) (nameKnown : Bool)
    (type : Int) (count : Nat) (ranks : List RankField) (data : Nat → Int)
    (amap : Nat → Int) (dptr : Nat → Int) (r : RankField) (me : Nat) :
    (gatherFlag g = true → me ≠ 0 → gatherWarnings g nameKnown me = 0) ∧
    (scatterFlag g = true → me ≠ 0 → scatterWarnings g nameKnown me = 0) ∧
    (gatherFlag g = false → nameKnown = false →
      gatherWarnings g nameKnown me = 1) ∧
    (scatterFlag g = false → nameKnown = false →
      scatterWarnings g nameKnown me = 1) ∧
    (nameKnown = false →
      lammps_gather_atoms g nameKnown type count ranks data = data) ∧
    (nameKnown = false →
      lammps_scatter_atoms g nameKnown type count amap dptr r = r) := by
  refine ⟨?_, ?_, ?_, ?_, ?_, ?_⟩
  · intro h1 h2; simp [gatherWarnings, h1, h2]
  · intro h1 h2; simp [scatterWarnings, h1, h2]
  · intro h1 h2; simp [gatherWarnings, h1, h2]
  · intro h1 h2; simp [scatterWarnings, h1, h2]
  · intro h1
    cases hf : gatherFlag g <;> simp [lammps_gather_atoms, h1, hf]
  · intro h1
    cases hf : scatterFlag g <;> simp [lammps_scatter_atoms, h1, hf]

theorem C4_diagnostics_amended_witness :
    gatherWarnings gBad true 1 = 0 ∧ gatherWarnings gOk false 0 = 1 ∧
    gatherWarnings gOk false 1 = 1 ∧
    lammps_gather_atoms gOk false 0 3 [] (fun _ => 7) = (fun _ => 7) := by
  obtain ⟨_, _, a3, _, a5, _⟩ := C4_diagnostics_amended gOk false 0 3 []
    (fun _ => 7) (fun _ => -1) (fun _ => 0) rBug 0
  obtain ⟨_, _, b3, _, _, _⟩ := C4_diagnostics_amended gOk false 0 3 []
    (fun _ => 7) (fun _ => -1) (fun _ => 0) rBug 1
  obtain ⟨c1, _⟩ := C4_diagnostics_amended gBad true 1 3 [] (fun _ => 7)
    (fun _ => -1) (fun _ => 0) rBug 1
  exact ⟨c1 (by decide) (by decide), a3 (by decide) rfl, b3 (by decide) rfl,
    a5 rfl⟩

/-- C8: beyond the gather preconditions, scatter requires the
tag-to-local-slot map to exist: with `map_style == 0` it aborts with a
single rank-0 diagnostic and mutates no local storage. -/
theorem C8_scatter_requires_map (g : LibGlobals) (nameKnown : Bool)
    (type : Int) (count : Nat) (amap : Nat → Int) (dptr : Nat → Int)
    (r : RankField) (hmap : g.map_style = 0) (hnp : 0 < g.nprocs) :
    lammps_scatter_atoms g nameKnown type count amap dptr r = r ∧
    ((List.range g.nprocs).map (scatterWarnings g nameKnown)).sum = 1 ∧
    scatterWarnings g nameKnown 0 = 1 ∧
    (∀ me, me ≠ 0 → scatterWarnings g nameKnown me = 0) := by
  have hsflag : scatterFlag g = true := by simp [scatterFlag, hmap]
  have hsw : ∀ me, scatterWarnings g nameKnown me = if me = 0 then 1 else 0 :=
    fun me => by simp [scatterWarnings, hsflag]
  refine ⟨?_, ?_, ?_, ?_⟩
  · simp [lammps_scatter_atoms, hsflag]
  · rw [List.map_congr_left (fun me _ => hsw me)]
    exact sum_indicator_range g.nprocs hnp
  · rw [hsw 0]; rfl
  · intro me hme; rw [hsw me, if_neg hme]

theorem C8_scatter_requires_map_witness :
    lammps_scatter_atoms gNoMap true 1 3 (fun _ => -1) (fun _ => 0) rBug = rBug
    ∧ ((List.range gNoMap.nprocs).map (scatterWarnings gNoMap true)).sum = 1 := by
  obtain ⟨h1, h2, _⟩ := C8_scatter_requires_map gNoMap true 1 3 (fun _ => -1)
    (fun _ => 0) rBug (by decide) (by decide)
  exact ⟨h1, h2⟩

/-- C5: each destination offset of the gather result equals the element-wise
sum over all ranks of their zero-initialized staging contributions: a rank
that holds tag `t` contributes the field value of its (last) local slot with
that tag, a rank that does not contributes the zero it initialized.  Hence
with disjoint partitions the result is the single owner value, and with
overlapping partitions it is the sum of all owner contributions. -/
theorem C5_gather_sums_contributions (count : Nat) (E : List RankField)
    (t j : Nat) (ht : 1 ≤ t) (hj : j < count)
    (htags : ∀ r ∈ E, ∀ i, i < r.nlocal → 1 ≤ r.tag i) :
    gatherAtomsDblArr count E (count * (t - 1) + j) =
      (E.map (fun r =>
        match ((List.range r.nlocal).filter (fun i => r.tag i == t)).getLast?
          with
        | some i0 => r.arr i0 j
        | none => 0)).sum := by
  unfold gatherAtomsDblArr gatherCopyDblArr
  show ((E.map fun r => gatherCopy count r.nlocal r.tag
      (fun i j2 => r.arr i j2)).map (fun b => b (count * (t - 1) + j))).sum = _
  rw [List.map_map]
  apply congrArg List.sum
  apply List.map_congr_left
  intro r hr
  show gatherCopy count r.nlocal r.tag (fun i j2 => r.arr i j2)
    (count * (t - 1) + j) = _
  unfold gatherCopy
  rw [gatherGo_read count r.tag _ t j ht hj (List.range r.nlocal) (fun _ => 0)
    (fun i hi => htags r hr i (List.mem_range.mp hi))]

theorem C5_gather_sums_contributions_witness :
    gatherAtomsDblArr 3
      [{ nlocal := 1, tag := fun _ => 1, vec := fun _ => 5, arr := fun _ _ => 5 },
       { nlocal := 1, tag := fun _ => 1, vec := fun _ => 7, arr := fun _ _ => 7 }]
      (3 * (1 - 1) + 1) = 12 := by
  rw [C5_gather_sums_contributions 3
    [{ nlocal := 1, tag := fun _ => 1, vec := fun _ => 5, arr := fun _ _ => 5 },
     { nlocal := 1, tag := fun _ => 1, vec := fun _ => 7, arr := fun _ _ => 7 }]
    1 1 (by decide) (by decide) (by decide)]
  decide

/-- C6: the gather output is a deterministic function of the field values
keyed by tag and does not depend on how the atoms are partitioned across the
ranks: for two partitionings of the same `natoms` atoms carrying the same
field values, the gathered buffers are identical, on the double array path,
the integer array path, and the `count = 1` vector path. -/
theorem C6_partition_invariance (count natoms : Nat) (hc : 0 < count)
    (V : Nat → Nat → Int) (Vv : Nat → Int) (E1 E2 : List RankField)
    (h1 : GoodPartition natoms count V Vv E1)
    (h2 : GoodPartition natoms count V Vv E2) :
    bufList (count * natoms) (gatherAtomsDblArr count E1) =
      bufList (count * natoms) (gatherAtomsDblArr count E2) ∧
    bufList (count * natoms) (gatherAtomsIntArr count E1) =
      bufList (count * natoms) (gatherAtomsIntArr count E2) ∧
    bufList natoms (gatherAtomsVec E1) = bufList natoms (gatherAtomsVec E2) := by
  have hkey : ∀ k, k < count * natoms →
      1 ≤ k / count + 1 ∧ k / count + 1 ≤ natoms ∧ k % count < count ∧
      count * (k / count + 1 - 1) + k % count = k := by
    intro k hk
    have hdiv : k / count < natoms :=
      (Nat.div_lt_iff_lt_mul hc).mpr (by rwa [Nat.mul_comm] at hk)
    refine ⟨Nat.succ_le_succ (Nat.zero_le _), hdiv, Nat.mod_lt k hc, ?_⟩
    have h3 : k / count + 1 - 1 = k / count := Nat.succ_sub_one (k / count)
    rw [h3, Nat.div_add_mod]
  refine ⟨?_, ?_, ?_⟩
  · apply bufList_congr
    intro k hk
    obtain ⟨a1, a2, a3, a4⟩ := hkey k hk
    rw [← a4,
      gatherAtomsDblArr_canonical count natoms V Vv E1 h1 _ _ a1 a2 a3,
      gatherAtomsDblArr_canonical count natoms V Vv E2 h2 _ _ a1 a2 a3]
  · apply bufList_congr
    intro k hk
    obtain ⟨a1, a2, a3, a4⟩ := hkey k hk
    rw [← a4,
      gatherAtomsIntArr_canonical count natoms V Vv E1 h1 _ _ a1 a2 a3,
      gatherAtomsIntArr_canonical count natoms V Vv E2 h2 _ _ a1 a2 a3]
  · apply bufList_congr
    intro k hk
    have a1 : 1 ≤ k + 1 := by omega
    have a2 : k + 1 ≤ natoms := by omega
    have a4 : k + 1 - 1 = k := rfl
    rw [← a4,
      gatherAtomsVec_canonical natoms count V Vv E1 h1 (k + 1) a1 a2,
      gatherAtomsVec_canonical natoms count V Vv E2 h2 (k + 1) a1 a2]

theorem C6_partition_invariance_witness :
    bufList 4 (gatherAtomsDblArr 2
      [{ nlocal := 2, tag := fun i => i + 1, vec := fun i => (i : Int) + 1
         arr := fun i j => 10 * ((i : Int) + 1) + j }]) =
    bufList 4 (gatherAtomsDblArr 2
      [{ nlocal := 1, tag := fun _ => 2, vec := fun _ => 2
         arr := fun _ j => 20 + (j : Int) },
       { nlocal := 1, tag := fun _ => 1, vec := fun _ => 1
         arr := fun _ j => 10 + (j : Int) }]) :=
  (C6_partition_invariance 2 2 (by decide)
    (fun t j => 10 * (t : Int) + j) (fun t => (t : Int)) _ _
    ⟨by decide, by decide, by decide, by decide⟩
    ⟨by decide, by decide, by decide, by decide⟩).1

/-- C7: scatter iterates every global tag `t` in `1..natoms` and copies the
`count` source values at offset `count*(t-1)` (respectively the single value
at `t-1`) into local slot `m` exactly when the lookup resolves
(`map(t) >= 0`); a local slot that no tag of the lookup resolves to keeps its
prior contents.  The definitions `scatterArray` and `scatterVector` consume
only the local map, source buffer and local storage of one rank: no
collective communication occurs. -/
theorem C7_scatter_locality (count natoms : Nat) (amap : Nat → Int)
    (dptr : Nat → Int) (arr : Nat → Nat → Int) (v : Nat → Int) :
    (∀ t m, 1 ≤ t → t ≤ natoms → amap t = m → 0 ≤ m →
      (∀ u, 1 ≤ u → u ≤ natoms → u ≠ t →
        ¬ (0 ≤ amap u ∧ (amap u).toNat = m.toNat)) →
      (∀ j, j < count →
        scatterArray count natoms amap dptr arr m.toNat j =
          dptr (count * (t - 1) + j)) ∧
      scatterVector natoms amap dptr v m.toNat = dptr (t - 1)) ∧
    (∀ s, (∀ u, 1 ≤ u → u ≤ natoms →
        ¬ (0 ≤ amap u ∧ (amap u).toNat = s)) →
      (∀ j, scatterArray count natoms amap dptr arr s j = arr s j) ∧
      scatterVector natoms amap dptr v s = v s) := by
  constructor
  · intro t m ht htn hmap hm huniq
    have hfl : (List.range natoms).filter (fun i =>
        decide (0 ≤ amap (i + 1)) && ((amap (i + 1)).toNat == m.toNat)) =
        [t - 1] := by
      apply filter_range_eq_singleton
      · omega
      · show (decide (0 ≤ amap (t - 1 + 1)) &&
          ((amap (t - 1 + 1)).toNat == m.toNat)) = true
        have h1 : t - 1 + 1 = t := by omega
        rw [h1, hmap]
        simp [hm]
      · intro i hi hpi
        have h2 : 0 ≤ amap (i + 1) ∧ (amap (i + 1)).toNat = m.toNat := by
          simpa [Bool.and_eq_true, decide_eq_true_eq, beq_iff_eq] using hpi
        by_contra hne
        have hu : i + 1 ≠ t := by omega
        exact huniq (i + 1) (by omega) (by omega) hu h2
    constructor
    · intro j hj
      unfold scatterArray
      rw [scatterGo_read count amap dptr m.toNat j hj (List.range natoms) arr,
        hfl]
      simp
    · unfold scatterVector
      rw [scatterGoVec_read amap dptr m.toNat (List.range natoms) v, hfl]
      simp
  · intro s hs
    have hframe : ∀ i ∈ List.range natoms,
        ¬ (0 ≤ amap (i + 1) ∧ (amap (i + 1)).toNat = s) := by
      intro i hi
      have h2 : i < natoms := List.mem_range.mp hi
      exact hs (i + 1) (by omega) (by omega)
    exact ⟨fun j => scatterGo_frame count amap dptr s j (List.range natoms)
        arr hframe,
      scatterGoVec_frame amap dptr s (List.range natoms) v hframe⟩

theorem C7_scatter_locality_witness :
    scatterArray 2 2 (fun u => if u = 1 then 0 else -1)
      (fun k => (k : Int) + 10) (fun m j => 100 * (m : Int) + j) 0 1 = 11 ∧
    scatterVector 2 (fun u => if u = 1 then 0 else -1)
      (fun k => (k : Int) + 10) (fun m => (m : Int)) 0 = 10 ∧
    scatterArray 2 2 (fun u => if u = 1 then 0 else -1)
      (fun k => (k : Int) + 10) (fun m j => 100 * (m : Int) + j) 5 1 = 501 ∧
    scatterVector 2 (fun u => if u = 1 then 0 else -1)
      (fun k => (k : Int) + 10) (fun m => (m : Int)) 5 = 5 := by
  obtain ⟨hupd, hfr⟩ := C7_scatter_locality 2 2
    (fun u => if u = 1 then 0 else -1) (fun k => (k : Int) + 10)
    (fun m j => 100 * (m : Int) + j) (fun m => (m : Int))
  have h1 := hupd 1 0 (by decide) (by decide) (by decide) (by decide)
    (fun u hu1 hu2 hu3 => by
      have hu : u = 2 := by omega
      subst hu
      decide)
  have h2 := hfr 5 (fun u hu1 hu2 => by
    have hu : u = 1 ∨ u = 2 := by omega
    rcases hu with h | h <;> subst h <;> decide)
  exact ⟨(h1.1 1 (by decide)).trans (by decide), h1.2.trans (by decide),
    (h2.1 1).trans (by decide), h2.2.trans (by decide)⟩
